import Mathlib

/-
Verification of the proto-to-GraphQL mapping engine (src/src/index.ts).

The engine is embedded shallowly: JavaScript strings become Lean strings,
the protobufjs descriptor view becomes plain structures, the in-place
mutation of field names performed during emission is made explicit by
returning the updated descriptor tree, and the three abnormal outcomes of
the conversion function (returning null, calling process.exit(1) on a
non-proto3 tree, and crashing with a TypeError on an undefined
dereference) become constructors of an outcome type.
-/

namespace ProtoGql

/-- Model of JavaScript String.prototype.startsWith on our ASCII data. -/
def jsStartsWith (s pre : String) : Bool :=
  pre.data.isPrefixOf s.data

/-- Model of JavaScript String.prototype.endsWith on our ASCII data. -/
def jsEndsWith (s post : String) : Bool :=
  post.data.isSuffixOf s.data

/-- Model of JavaScript String.prototype.slice(1) on our ASCII data. -/
def jsSlice1 (s : String) : String :=
  String.mk (s.data.drop 1)

/-- Model of JavaScript Array.prototype.join. -/
def jsJoin (sep : String) : List String → String
  | [] => ""
  | [x] => x
  | x :: y :: rest => x ++ sep ++ jsJoin sep (y :: rest)

/-- Model of a JavaScript array map whose body may crash (the non-null
assertion operator on a failed property lookup); none propagates the crash. -/
def mapOpt (f : α → Option β) : List α → Option (List β)
  | [] => some []
  | a :: rest =>
    match f a with
    | none => none
    | some b =>
      match mapOpt f rest with
      | none => none
      | some bs => some (b :: bs)

/-- Entries of the typeMapping record of index.ts (lines 46 to 63) in
declaration order. -/
def typeMappingEntries : List (String × String) :=
  [("double", "Float"), ("float", "Float"),
   ("int32", "Int"), ("int64", "Int"), ("uint32", "Int"), ("uint64", "Int"),
   ("sint32", "Int"), ("sint64", "Int"), ("fixed32", "Int"), ("fixed64", "Int"),
   ("sfixed32", "Int"), ("sfixed64", "Int"),
   ("bool", "Boolean"), ("string", "String"), ("bytes", "String"), ("map", "JSON")]

/-- Lookup in the typeMapping record of index.ts. -/
def typeMapping (t : String) : Option String :=
  (typeMappingEntries.find? (fun kv => kv.1 = t)).map Prod.snd

/-- One entry of the googleTypeMapping record: a synthesized GraphQL type
name and its literal body. -/
structure GoogleEntry where
  typeName : String
  value : String
  deriving DecidableEq, Repr

/-- Lookup in the googleTypeMapping record of index.ts (lines 65 to 114). -/
def googleTypeMapping (t : String) : Option GoogleEntry :=
  if t = "google.protobuf.StringValue" then
    some (GoogleEntry.mk "StringValue" "\x7b\n\tvalue: String\n\x7d")
  else if t = "google.protobuf.DoubleValue" then
    some (GoogleEntry.mk "DoubleValue" "\x7b\n\tvalue: Float\n\x7d")
  else if t = "google.protobuf.Int32Value" then
    some (GoogleEntry.mk "Int32Value" "\x7b\n\tvalue: Int\n\x7d")
  else if t = "google.protobuf.Int64Value" then
    some (GoogleEntry.mk "Int64Value" "\x7b\n\tvalue: Int\n\x7d")
  else if t = "google.protobuf.UInt32Value" then
    some (GoogleEntry.mk "UInt32Value" "\x7b\n\tvalue: Int\n\x7d")
  else if t = "google.protobuf.UInt64Value" then
    some (GoogleEntry.mk "UInt64Value" "\x7b\n\tvalue: Int\n\x7d")
  else if t = "google.protobuf.BoolValue" then
    some (GoogleEntry.mk "BoolValue" "\x7b\n\tvalue: Boolean\n\x7d")
  else if t = "google.protobuf.BytesValue" then
    some (GoogleEntry.mk "BytesValue" "\x7b\n\tvalue: String\n\x7d")
  else if t = "google.protobuf.FloatValue" then
    some (GoogleEntry.mk "FloatValue" "\x7b\n\tvalue: Float\n\x7d")
  else if t = "google.protobuf.Empty" then
    some (GoogleEntry.mk "Empty" "\x7b\x7d")
  else if t = "google.protobuf.Any" then
    some (GoogleEntry.mk "Any" "\x7b\n\tvalue: JSON\n\x7d")
  else if t = "google.protobuf.Timestamp" then
    some (GoogleEntry.mk "Timestamp" "\x7b\n\tvalue: String\n\x7d")
  else none

/-- View of a protobufjs FieldBase: current name (mutable in the source),
declared protobuf type name, repeated flag, map flag. -/
structure FieldBase where
  name : String
  type : String
  repeated : Bool
  map : Bool
  deriving DecidableEq, Repr

/-- View of a protobufjs OneOf: its name and the member field objects of
its fieldsArray, identified by their dictionary keys in the parent
message's fields record (the key is the field's name at parse time). -/
structure OneofDesc where
  name : String
  fieldKeys : List String
  deriving DecidableEq, Repr

/-- View of a protobufjs Type (message): name, the fields record as an
insertion-ordered list of key and field object, and the oneofsArray. -/
structure TypeDesc where
  name : String
  fields : List (String × FieldBase)
  oneofs : List OneofDesc
  deriving DecidableEq, Repr

/-- View of a protobufjs Enum: name and the keys of its values record in
insertion order. -/
structure EnumDesc where
  name : String
  values : List String
  deriving DecidableEq, Repr

/-- View of a protobufjs Method. -/
structure MethodDesc where
  name : String
  requestType : String
  responseType : String
  deriving DecidableEq, Repr

/-- View of a protobufjs Service: name and its methods record values in
insertion order. -/
structure ServiceDesc where
  name : String
  methods : List MethodDesc
  deriving DecidableEq, Repr

/-- View of one value of a namespace's nested record. In protobufjs, Type
and Service and plain Namespace are all instances of Namespace, while Enum
is not; a Type additionally carries its own nested declarations. -/
inductive NestedObj where
  | enumObj : EnumDesc → NestedObj
  | serviceObj : ServiceDesc → NestedObj
  | typeObj : TypeDesc → List NestedObj → NestedObj
  | nsObj : String → List NestedObj → NestedObj

/-- Check mirroring the instanceof protobuf.Namespace test: true for plain
namespaces, messages and services, false for enums. -/
def isNamespaceInst : NestedObj → Bool
  | NestedObj.enumObj _ => false
  | _ => true

/-- View of the file-level options record: the value of its syntax key,
when present. -/
structure OptionsDesc where
  synOpt : Option String
  deriving DecidableEq, Repr

/-- View of a protobufjs Root: its nested record (undefined when the file
declares nothing) and its options record. -/
structure RootDesc where
  nested : Option (List NestedObj)
  options : Option OptionsDesc

/-- Outcome of the conversion function: returning null, process.exit(1)
after the proto3 check, a JavaScript TypeError crash (undefined
dereference), or the produced SDL text. -/
inductive ConvResult where
  | nullRes : ConvResult
  | exitFatal : ConvResult
  | typeError : ConvResult
  | ok : String → ConvResult
  deriving DecidableEq, Repr

/-- Mutable state threaded through one top-level namespace emission: the
addedGoogleTypes set and the packageTypes array of index.ts (lines 208 and
209). -/
structure FieldEmitState where
  added : List String
  pkgTypes : List String
  deriving DecidableEq, Repr

/-- Result of emitting one field: the emitted line, the field object after
the in-place name mutation, and the updated emission state. -/
structure FieldResult where
  line : String
  field : FieldBase
  st : FieldEmitState
  deriving DecidableEq, Repr

/-- Emission of one message field, mirroring index.ts lines 218 to 241
(identical code at lines 277 to 298): well-known-type substitution guarded
by the dedup set, scalar-table lookup with pass-through, map forcing to
JSON, repeated wrapping in brackets, and the in-place strip of one leading
dot from the field name. -/
def emitField (st : FieldEmitState) (value : FieldBase) : FieldResult :=
  let googleField := googleTypeMapping value.type
  let gql0 := (typeMapping value.type).getD value.type
  let reg :=
    match googleField with
    | some g =>
      if st.added.contains value.type then (gql0, st)
      else
        (g.typeName,
          FieldEmitState.mk (value.type :: st.added)
            (("type " ++ g.typeName ++ " " ++ g.value) :: st.pkgTypes))
    | none => (gql0, st)
  let gqlType := if value.map then "JSON" else reg.1
  let isArray := if value.repeated then "[" ++ gqlType ++ "]" else gqlType
  let newName := if jsStartsWith value.name "." then jsSlice1 value.name else value.name
  FieldResult.mk ("\t" ++ newName ++ ": " ++ isArray)
    (FieldBase.mk newName value.type value.repeated value.map) reg.2

/-- Resolution of a field's GraphQL type name before the map and repeated
adjustments, as computed by emitField for a given dedup-set state. -/
def resolveType (added : List String) (t : String) : String :=
  match googleTypeMapping t with
  | some g => if added.contains t then (typeMapping t).getD t else g.typeName
  | none => (typeMapping t).getD t

/-- Result of the fields map over one message: the emitted lines, the
fields record after the in-place name mutations, and the final state. -/
structure FieldsResult where
  lines : List String
  fields : List (String × FieldBase)
  st : FieldEmitState
  deriving DecidableEq, Repr

/-- Emission of all fields of one message in record order, threading the
emission state; record keys are left untouched, only the field objects
carried as values are replaced by their mutated versions. -/
def emitFieldsAcc (st : FieldEmitState) : List (String × FieldBase) → FieldsResult
  | [] => FieldsResult.mk [] [] st
  | (k, f) :: rest =>
    let one := emitField st f
    let restR := emitFieldsAcc one.st rest
    FieldsResult.mk (one.line :: restR.lines) ((k, one.field) :: restR.fields) restR.st

/-- Lookup of a key in a fields record, mirroring the JavaScript property
access nestedObj.fields[k]. -/
def fLookup : List (String × FieldBase) → String → Option FieldBase
  | [], _ => none
  | kv :: rest, k => if kv.1 = k then some kv.2 else fLookup rest k

/-- Member name resolution of index.ts lines 245 to 247: each member
object of the oneof's fieldsArray (identified by its dictionary key) is
re-read through the fields record keyed by the object's current name;
none models the TypeError crash of the non-null assertion when the record
lookup yields undefined. -/
def oneofNameLookup (fields : List (String × FieldBase)) (k : String) : Option String :=
  match fLookup fields k with
  | none => none
  | some fobj =>
    match fLookup fields fobj.name with
    | none => none
    | some found => some found.name

/-- Member type resolution of the union, mirroring index.ts lines 252 to
257: scalar-table lookup on the looked-up field's declared type with
fall-back to the raw type name, and a crash when the lookup fails. -/
def oneofTypeLookup (fields : List (String × FieldBase)) (n : String) : Option String :=
  match fLookup fields n with
  | none => none
  | some fb => some ((typeMapping fb.type).getD fb.type)

/-- Emission of one oneof group, mirroring index.ts lines 244 to 258
(identical code at lines 301 to 311): the member-name comment line
followed by a field of the oneof's name whose type joins the member types
with a pipe separator. -/
def emitOneof (fields : List (String × FieldBase)) (o : OneofDesc) : Option String :=
  match mapOpt (oneofNameLookup fields) o.fieldKeys with
  | none => none
  | some names =>
    match mapOpt (oneofTypeLookup fields) names with
    | none => none
    | some tys =>
      some ("\toneof: " ++ jsJoin ", " names ++ "\n\t" ++ o.name ++ ": "
        ++ jsJoin " | " tys)

/-- Result of emitting one message: the type declaration, the parallel
input declaration, the mutated fields record and the updated state. -/
structure MsgDecls where
  typeDecl : String
  inputDecl : String
  fields : List (String × FieldBase)
  st : FieldEmitState
  deriving DecidableEq, Repr

/-- Emission of one message into its pair of declarations, the code shared
verbatim between the package branch (index.ts lines 217 to 267) and the
root-message branch (lines 276 to 316): fields first, then oneof lines,
then the type and input blocks over the identical joined body. -/
def messageDecls (st : FieldEmitState) (m : TypeDesc) : Option MsgDecls :=
  match mapOpt (emitOneof (emitFieldsAcc st m.fields).fields) m.oneofs with
  | none => none
  | some oLines =>
    some (MsgDecls.mk
      ("type " ++ m.name ++ " \x7b\n"
        ++ jsJoin "\n" ((emitFieldsAcc st m.fields).lines ++ oLines) ++ "\n\x7d")
      ("input " ++ m.name ++ "Input \x7b\n"
        ++ jsJoin "\n" ((emitFieldsAcc st m.fields).lines ++ oLines) ++ "\n\x7d")
      (emitFieldsAcc st m.fields).fields
      (emitFieldsAcc st m.fields).st)

/-- Enum emitter of index.ts lines 150 to 159. -/
def protobufEnumToGraphQL (e : EnumDesc) : String :=
  "enum " ++ e.name ++ " \x7b\n"
    ++ jsJoin "\n" (e.values.map (fun v => "\t" ++ v))
    ++ "\n\x7d"

/-- Field line produced for one service method (index.ts line 166). -/
def gqlMethodField (m : MethodDesc) : String :=
  "  " ++ m.name ++ "(" ++ m.requestType ++ ": " ++ m.requestType ++ "): "
    ++ m.responseType

/-- Classification fold of index.ts lines 165 to 175: queries and
mutations accumulated in method order. -/
def classifyMethods : List MethodDesc → List String × List String
  | [] => ([], [])
  | m :: rest =>
    let f := gqlMethodField m
    let acc := classifyMethods rest
    if ["Get", "List"].any (fun verb => jsStartsWith m.name verb) then
      (f :: acc.1, acc.2)
    else if ["Create", "Update", "Delete"].any (fun verb => jsStartsWith m.name verb) then
      (acc.1, f :: acc.2)
    else
      (acc.1, f :: acc.2)

/-- Service emitter of index.ts lines 161 to 181. -/
def protobufServiceToGraphQL (service : ServiceDesc) : String :=
  let acc := classifyMethods service.methods
  let queryType :=
    if acc.1.isEmpty then "" else "type Query \x7b\n" ++ jsJoin "\n" acc.1 ++ "\n\x7d"
  let mutationType :=
    if acc.2.isEmpty then "" else "type Mutation \x7b\n" ++ jsJoin "\n" acc.2 ++ "\n\x7d"
  jsJoin "\n\n" (([queryType, mutationType]).filter (fun s => s ≠ ""))

/-- Processing of one immediate child of a package namespace (index.ts
lines 216 to 273): messages, enums and services append to packageTypes
through the shared state, a nested plain namespace is ignored; none models
a TypeError crash inside oneof emission. -/
def processChild (st : FieldEmitState) (c : NestedObj) : Option (FieldEmitState × NestedObj) :=
  match c with
  | NestedObj.typeObj m children =>
    match messageDecls st m with
    | none => none
    | some d =>
      some (FieldEmitState.mk d.st.added (d.st.pkgTypes ++ [d.typeDecl, d.inputDecl]),
        NestedObj.typeObj (TypeDesc.mk m.name d.fields m.oneofs) children)
  | NestedObj.enumObj e =>
    some (FieldEmitState.mk st.added (st.pkgTypes ++ [protobufEnumToGraphQL e]), c)
  | NestedObj.serviceObj s =>
    some (FieldEmitState.mk st.added (st.pkgTypes ++ [protobufServiceToGraphQL s]), c)
  | NestedObj.nsObj _ _ => some (st, c)

/-- Processing of all immediate children of a package namespace in
declaration order. -/
def processChildren (st : FieldEmitState) : List NestedObj → Option (FieldEmitState × List NestedObj)
  | [] => some (st, [])
  | c :: rest =>
    match processChild st c with
    | none => none
    | some r =>
      match processChildren r.1 rest with
      | none => none
      | some r2 => some (r2.1, r.2 :: r2.2)

/-- Processing of one top-level declaration of the root (index.ts lines
198 to 319): enums and services are emitted directly; a namespace with at
least one namespace-instance child is a package (skipped when named
google, otherwise its children are collected into one block ending in a
newline); a namespace that is a message is emitted as its pair of
declarations, its well-known-type declarations being written to the
discarded packageTypes buffer; any other namespace contributes nothing. -/
def processTop (obj : NestedObj) : Option (List String × NestedObj) :=
  match obj with
  | NestedObj.enumObj e => some ([protobufEnumToGraphQL e], obj)
  | NestedObj.serviceObj s => some ([protobufServiceToGraphQL s], obj)
  | NestedObj.typeObj m children =>
    if children.any isNamespaceInst then
      if m.name = "google" then some ([], obj)
      else
        match processChildren (FieldEmitState.mk [] []) children with
        | none => none
        | some r => some ([jsJoin "\n\n" r.1.pkgTypes ++ "\n"], NestedObj.typeObj m r.2)
    else
      match messageDecls (FieldEmitState.mk [] []) m with
      | none => none
      | some d =>
        some ([d.typeDecl, d.inputDecl],
          NestedObj.typeObj (TypeDesc.mk m.name d.fields m.oneofs) children)
  | NestedObj.nsObj name children =>
    if children.any isNamespaceInst then
      if name = "google" then some ([], obj)
      else
        match processChildren (FieldEmitState.mk [] []) children with
        | none => none
        | some r => some ([jsJoin "\n\n" r.1.pkgTypes ++ "\n"], NestedObj.nsObj name r.2)
    else some ([], obj)

/-- Processing of the whole top-level declaration list, concatenating the
strings pushed to the types array in encounter order. -/
def processTops : List NestedObj → Option (List String × List NestedObj)
  | [] => some ([], [])
  | obj :: rest =>
    match processTop obj with
    | none => none
    | some r =>
      match processTops rest with
      | none => none
      | some r2 => some (r.1 ++ r2.1, r.2 :: r2.2)

/-- Conversion function protobufToGraphQL of index.ts lines 183 to 322,
with the in-place descriptor mutation made explicit in the second
component: returns null when the root has no nested record; crashes with a
TypeError when the options record or its syntax entry is absent; exits the
process when the syntax string does not end in 3; otherwise produces the
joined document text with one trailing newline. -/
def protobufToGraphQL (root : RootDesc) : ConvResult × RootDesc :=
  match root.nested with
  | none => (ConvResult.nullRes, root)
  | some ns =>
    match root.options with
    | none => (ConvResult.typeError, root)
    | some opts =>
      match opts.synOpt with
      | none => (ConvResult.typeError, root)
      | some syn =>
        if jsEndsWith syn "3" then
          match processTops ns with
          | none => (ConvResult.typeError, root)
          | some r =>
            (ConvResult.ok (jsJoin "\n\n" r.1 ++ "\n"), RootDesc.mk (some r.2) root.options)
        else (ConvResult.exitFatal, root)

/-- Name under which a field is emitted: its name with one leading dot
stripped, as performed in place by index.ts lines 236 to 238. -/
def emittedName (f : FieldBase) : String :=
  if jsStartsWith f.name "." then jsSlice1 f.name else f.name

/-- Query classification of the specification: a method name starting
with Get or List. -/
def isQueryName (n : String) : Bool :=
  jsStartsWith n "Get" || jsStartsWith n "List"

/-- Service emission as the specification words it: fields of methods
whose names start with Get or List form the Query block, all other
methods form the Mutation block, each block is emitted only when
non-empty, and two non-empty blocks are joined with one blank line. -/
def serviceSpecEmit (service : ServiceDesc) : String :=
  let queryFields := (service.methods.filter (fun m => isQueryName m.name)).map gqlMethodField
  let mutationFields :=
    (service.methods.filter (fun m => !isQueryName m.name)).map gqlMethodField
  let queryBlock := "type Query \x7b\n" ++ jsJoin "\n" queryFields ++ "\n\x7d"
  let mutationBlock := "type Mutation \x7b\n" ++ jsJoin "\n" mutationFields ++ "\n\x7d"
  if queryFields = [] then
    if mutationFields = [] then "" else mutationBlock
  else
    if mutationFields = [] then queryBlock else queryBlock ++ "\n\n" ++ mutationBlock

/-- Check that a field's name carries at most one leading dot: after the
single strip performed at emission, the name no longer starts with a
dot. -/
def fieldAtMostOneDot (f : FieldBase) : Bool :=
  !(jsStartsWith (emittedName f) ".")

/-- Check that every field of a message carries at most one leading
dot. -/
def msgAtMostOneDot (m : TypeDesc) : Bool :=
  m.fields.all (fun kv => fieldAtMostOneDot kv.2)

/-- Check, for an immediate child of a package, that any message carried
has field names with at most one leading dot. -/
def childAtMostOneDot : NestedObj → Bool
  | NestedObj.typeObj m _ => msgAtMostOneDot m
  | _ => true

/-- Check that a top-level declaration carries only field names with at
most one leading dot in the positions the walker processes. -/
def objAtMostOneDot : NestedObj → Bool
  | NestedObj.typeObj m children => msgAtMostOneDot m && children.all childAtMostOneDot
  | NestedObj.nsObj _ children => children.all childAtMostOneDot
  | _ => true

/-- Check that every field name the walker may process in a tree carries
at most one leading dot. -/
def rootAtMostOneDot (root : RootDesc) : Bool :=
  match root.nested with
  | none => true
  | some ns => ns.all objAtMostOneDot

/-- Descriptor tree with one package holding one message whose two fields
both reference google.protobuf.StringValue. -/
def c1Root : RootDesc :=
  RootDesc.mk
    (some [NestedObj.nsObj "pkg"
      [NestedObj.typeObj
        (TypeDesc.mk "A"
          [("x", FieldBase.mk "x" "google.protobuf.StringValue" false false),
           ("y", FieldBase.mk "y" "google.protobuf.StringValue" false false)] []) []]])
    (some (OptionsDesc.mk (some "proto3")))

/-- Descriptor tree whose sole top-level declaration is a message with a
lowercase-initial name. -/
def c3Root : RootDesc :=
  RootDesc.mk
    (some [NestedObj.typeObj
      (TypeDesc.mk "user" [("a", FieldBase.mk "a" "string" false false)] []) []])
    (some (OptionsDesc.mk (some "proto3")))

/-- Descriptor tree with a proto2 option and no nested declarations. -/
def c4Root : RootDesc :=
  RootDesc.mk none (some (OptionsDesc.mk (some "proto2")))

/-- Descriptor tree with a proto2 option and one nested declaration. -/
def c4RootNested : RootDesc :=
  RootDesc.mk (some [NestedObj.enumObj (EnumDesc.mk "E" ["A"])])
    (some (OptionsDesc.mk (some "proto2")))

/-- Descriptor tree whose message field name carries two leading dots. -/
def c6Root : RootDesc :=
  RootDesc.mk
    (some [NestedObj.typeObj
      (TypeDesc.mk "M" [("..x", FieldBase.mk "..x" "string" false false)] []) []])
    (some (OptionsDesc.mk (some "proto3")))

/-- Descriptor tree whose message field name carries exactly one leading
qualifier dot, for the idempotence witness. -/
def c6DotRoot : RootDesc :=
  RootDesc.mk
    (some [NestedObj.typeObj
      (TypeDesc.mk "M" [(".x", FieldBase.mk ".x" "string" false false)] []) []])
    (some (OptionsDesc.mk (some "proto3")))

/-- Message of the specification scenario for the type and input pair. -/
def userMsg : TypeDesc :=
  TypeDesc.mk "User"
    [("name", FieldBase.mk "name" "string" false false),
     ("age", FieldBase.mk "age" "int32" false false)] []

/-- Expected emission result for the userMsg scenario. -/
def userDecls : MsgDecls :=
  MsgDecls.mk "type User \x7b\n\tname: String\n\tage: Int\n\x7d"
    "input UserInput \x7b\n\tname: String\n\tage: Int\n\x7d"
    [("name", FieldBase.mk "name" "string" false false),
     ("age", FieldBase.mk "age" "int32" false false)]
    (FieldEmitState.mk [] [])

/-- Fields record of the oneof witness message. -/
def oneofExFields : List (String × FieldBase) :=
  [("a", FieldBase.mk "a" "string" false false),
   ("b", FieldBase.mk "b" "Foo" false false)]

/-- Oneof group of the witness message. -/
def oneofEx : OneofDesc :=
  OneofDesc.mk "choice" ["a", "b"]

/-- Root with one nested declaration and no options record. -/
def c10Root : RootDesc :=
  RootDesc.mk (some [NestedObj.enumObj (EnumDesc.mk "E" ["A"])]) none

/-- Keys of the scalar table are never keys of the well-known-type
table. -/
theorem scalar_keys_not_google :
    ∀ t ∈ typeMappingEntries.map Prod.fst, googleTypeMapping t = none := by decide

/-- Scalar keywords of the type-mapping table are never keys of the
well-known-type table. -/
theorem scalar_not_google (t v : String) (h : typeMapping t = some v) :
    googleTypeMapping t = none := by
  unfold typeMapping at h
  cases hf : typeMappingEntries.find? (fun kv => kv.1 = t) with
  | none => rw [hf] at h; simp at h
  | some kv =>
    have hm := List.mem_of_find?_eq_some hf
    have hp := List.find?_some hf
    simp at hp
    subst hp
    exact scalar_keys_not_google _ (List.mem_map_of_mem Prod.fst hm)

/-- Emitted line of one field in terms of the resolved type, the map
forcing, the repeated wrapping and the normalized name. -/
theorem emitField_line_eq (st : FieldEmitState) (f : FieldBase) :
    (emitField st f).line =
      "\t" ++ emittedName f ++ ": "
        ++ (if f.repeated then
              "[" ++ (if f.map then "JSON" else resolveType st.added f.type) ++ "]"
            else if f.map then "JSON" else resolveType st.added f.type) := by
  unfold emitField resolveType emittedName
  cases hg : googleTypeMapping f.type with
  | none => simp [hg]
  | some g => cases hc : List.contains st.added f.type <;> simp [hg, hc]

/-- C1: a well-known wrapper type referenced by two fields ought to yield
one synthesized declaration with both fields emitted as the synthesized
name; evaluating the engine on a package whose message references
google.protobuf.StringValue twice shows the second referencing field is
emitted with the raw key google.protobuf.StringValue instead of
StringValue, because the substitution is guarded by the dedup set. -/
theorem c1_wkt_second_field_eval :
    (protobufToGraphQL c1Root).1 =
      ConvResult.ok
        ("type StringValue \x7b\n\tvalue: String\n\x7d\n\ntype A \x7b\n\tx: StringValue\n\ty: google.protobuf.StringValue\n\x7d\n\ninput AInput \x7b\n\tx: StringValue\n\ty: google.protobuf.StringValue\n\x7d\n\n") := by
  decide

/-- C2: on a non-map non-repeated field, a declared type that is a scalar
keyword is emitted as the fixed table's value, and a declared type absent
from both tables is emitted unchanged, with no error raised. -/
theorem c2_scalar_mapping_and_passthrough (st : FieldEmitState) (f : FieldBase)
    (hm : f.map = false) (hr : f.repeated = false) :
    (∀ v, typeMapping f.type = some v →
      (emitField st f).line = "\t" ++ emittedName f ++ ": " ++ v) ∧
    (typeMapping f.type = none → googleTypeMapping f.type = none →
      (emitField st f).line = "\t" ++ emittedName f ++ ": " ++ f.type) := by
  constructor
  · intro v hv
    have hg := scalar_not_google f.type v hv
    rw [emitField_line_eq]
    simp [hm, hr, resolveType, hg, hv]
  · intro ht hg
    rw [emitField_line_eq]
    simp [hm, hr, resolveType, hg, ht]

/-- Witness for C2 at a concrete scalar field and a concrete pass-through
field. -/
theorem c2_scalar_witness :
    typeMapping "int32" = some "Int" ∧
    (emitField (FieldEmitState.mk [] []) (FieldBase.mk "n" "int32" false false)).line
      = "\tn: Int" ∧
    (emitField (FieldEmitState.mk [] []) (FieldBase.mk "p" "Foo" false false)).line
      = "\tp: Foo" :=
  ⟨by decide,
    (c2_scalar_mapping_and_passthrough (FieldEmitState.mk [] [])
      (FieldBase.mk "n" "int32" false false) rfl rfl).1 "Int" (by decide),
    (c2_scalar_mapping_and_passthrough (FieldEmitState.mk [] [])
      (FieldBase.mk "p" "Foo" false false) rfl rfl).2 (by decide) (by decide)⟩

/-- C5 counterexample: a field carrying both the map flag and the
repeated flag is emitted as bracket-wrapped JSON, not as bare JSON, so a
map field's emitted type is not unconditionally JSON regardless of the
repeated flag. -/
theorem c5_map_repeated_counterexample :
    (emitField (FieldEmitState.mk [] []) (FieldBase.mk "m" "string" true true)).line
        = "\tm: [JSON]" ∧
    (emitField (FieldEmitState.mk [] []) (FieldBase.mk "m" "string" true true)).line
        ≠ "\tm: JSON" := by
  exact ⟨by decide, by decide⟩

/-- C5 amended: a map field that is not repeated is emitted as JSON; a
map field that is also repeated is emitted as bracket-wrapped JSON; a
repeated non-map field is the resolved type wrapped in exactly one pair
of brackets. -/
theorem c5_amended_map_and_list (st : FieldEmitState) (f : FieldBase) :
    (f.map = true → f.repeated = false →
      (emitField st f).line = "\t" ++ emittedName f ++ ": " ++ "JSON") ∧
    (f.map = true → f.repeated = true →
      (emitField st f).line = "\t" ++ emittedName f ++ ": " ++ "[JSON]") ∧
    (f.map = false → f.repeated = true →
      (emitField st f).line
        = "\t" ++ emittedName f ++ ": "
            ++ ("[" ++ resolveType st.added f.type ++ "]")) := by
  refine ⟨?_, ?_, ?_⟩ <;> intro h1 h2 <;> rw [emitField_line_eq] <;> simp [h1, h2]

/-- Witness for C5 at a concrete non-repeated map field and a concrete
repeated scalar field. -/
theorem c5_amended_witness :
    (emitField (FieldEmitState.mk [] []) (FieldBase.mk "m" "string" false true)).line
        = "\tm: JSON" ∧
    (emitField (FieldEmitState.mk [] []) (FieldBase.mk "r" "int32" true false)).line
        = "\tr: [Int]" :=
  ⟨(c5_amended_map_and_list (FieldEmitState.mk [] [])
      (FieldBase.mk "m" "string" false true)).1 rfl rfl,
    ((c5_amended_map_and_list (FieldEmitState.mk [] [])
      (FieldBase.mk "r" "int32" true false)).2).2 rfl rfl⟩

/-- C3 counterexample: a top-level message whose name starts with a
lowercase letter is nevertheless emitted as a top-level GraphQL type; the
walker performs no check on the initial letter of a name. -/
theorem c3_lowercase_message_emitted :
    (protobufToGraphQL c3Root).1 =
      ConvResult.ok
        "type user \x7b\n\ta: String\n\x7d\n\ninput userInput \x7b\n\ta: String\n\x7d\n" := by
  decide

/-- C3 amended: the root-scan disambiguation is structural, not by name
case; a message with no nested declarations is emitted as the pair of
top-level declarations headed by its own name, whatever its initial
letter. -/
theorem c3_amended_no_case_check (m : TypeDesc) (d : MsgDecls)
    (h : messageDecls (FieldEmitState.mk [] []) m = some d) :
    processTop (NestedObj.typeObj m []) =
      some ([d.typeDecl, d.inputDecl],
        NestedObj.typeObj (TypeDesc.mk m.name d.fields m.oneofs) []) ∧
    ∃ body, d.typeDecl = "type " ++ m.name ++ " \x7b\n" ++ body ++ "\n\x7d" := by
  constructor
  · unfold processTop
    simp [h]
  · unfold messageDecls at h
    split at h
    · exact absurd h (by simp)
    · injection h with h
      subst h
      exact ⟨_, rfl⟩

/-- Lowercase-named message used by the C3 witness. -/
def lowerMsg : TypeDesc :=
  TypeDesc.mk "user" [("a", FieldBase.mk "a" "string" false false)] []

/-- Expected emission result for lowerMsg. -/
def lowerDecls : MsgDecls :=
  MsgDecls.mk "type user \x7b\n\ta: String\n\x7d" "input userInput \x7b\n\ta: String\n\x7d"
    [("a", FieldBase.mk "a" "string" false false)] (FieldEmitState.mk [] [])

/-- Witness for C3 amended at a lowercase-named message. -/
theorem c3_amended_witness :
    messageDecls (FieldEmitState.mk [] []) lowerMsg = some lowerDecls ∧
    (processTop (NestedObj.typeObj lowerMsg []) =
      some ([lowerDecls.typeDecl, lowerDecls.inputDecl],
        NestedObj.typeObj (TypeDesc.mk lowerMsg.name lowerDecls.fields lowerMsg.oneofs) []) ∧
    ∃ body, lowerDecls.typeDecl = "type " ++ lowerMsg.name ++ " \x7b\n" ++ body ++ "\n\x7d") :=
  ⟨rfl, c3_amended_no_case_check lowerMsg lowerDecls rfl⟩

/-- C4 counterexample: a tree with a proto2 option and no nested
declarations returns null instead of aborting, because the nested check
runs before the version check. -/
theorem c4_no_abort_without_nested :
    (protobufToGraphQL c4Root).1 = ConvResult.nullRes ∧
    (protobufToGraphQL c4Root).1 ≠ ConvResult.exitFatal :=
  ⟨rfl, by decide⟩

/-- C4 amended: on a tree whose root has a nested record and whose
declared option string does not end in 3, the conversion exits the
process fatally before producing any output. -/
theorem c4_amended_syntax_abort (root : RootDesc) (ns : List NestedObj)
    (opts : OptionsDesc) (syn : String)
    (h1 : root.nested = some ns) (h2 : root.options = some opts)
    (h3 : opts.synOpt = some syn) (h4 : jsEndsWith syn "3" = false) :
    (protobufToGraphQL root).1 = ConvResult.exitFatal := by
  unfold protobufToGraphQL
  simp [h1, h2, h3, h4]

/-- Witness for C4 amended at a concrete proto2 tree with one
declaration. -/
theorem c4_amended_witness :
    jsEndsWith "proto2" "3" = false ∧
    (protobufToGraphQL c4RootNested).1 = ConvResult.exitFatal :=
  ⟨by decide, c4_amended_syntax_abort c4RootNested _ _ _ rfl rfl rfl (by decide)⟩

/-- C8: when a message is emitted, the type declaration and the parallel
input declaration enclose character-for-character identical bodies, under
the names N and NInput. -/
theorem c8_type_input_pair (st : FieldEmitState) (m : TypeDesc) (d : MsgDecls)
    (h : messageDecls st m = some d) :
    ∃ body,
      d.typeDecl = "type " ++ m.name ++ " \x7b\n" ++ body ++ "\n\x7d" ∧
      d.inputDecl = "input " ++ m.name ++ "Input \x7b\n" ++ body ++ "\n\x7d" := by
  unfold messageDecls at h
  split at h
  · exact absurd h (by simp)
  · injection h with h
    subst h
    exact ⟨_, rfl, rfl⟩

/-- Witness for C8 at the User scenario of the specification. -/
theorem c8_user_witness :
    messageDecls (FieldEmitState.mk [] []) userMsg = some userDecls ∧
    userDecls.typeDecl = "type User \x7b\n\tname: String\n\tage: Int\n\x7d" ∧
    userDecls.inputDecl = "input UserInput \x7b\n\tname: String\n\tage: Int\n\x7d" ∧
    (∃ body,
      userDecls.typeDecl = "type " ++ userMsg.name ++ " \x7b\n" ++ body ++ "\n\x7d" ∧
      userDecls.inputDecl = "input " ++ userMsg.name ++ "Input \x7b\n" ++ body ++ "\n\x7d") :=
  ⟨rfl, rfl, rfl, c8_type_input_pair (FieldEmitState.mk [] []) userMsg userDecls rfl⟩

/-- Oneof member-name pass yields exactly the member keys when every
member key resolves to a field whose current name equals the key. -/
theorem mapOpt_oneofNameLookup (fields : List (String × FieldBase)) :
    ∀ (keys : List String) (mems : List FieldBase),
      mapOpt (fLookup fields) keys = some mems →
      mems.map FieldBase.name = keys →
      mapOpt (oneofNameLookup fields) keys = some keys := by
  intro keys
  induction keys with
  | nil =>
    intro mems h1 h2
    simp [mapOpt]
  | cons k ks ih =>
    intro mems h1 h2
    unfold mapOpt at h1
    cases hf : fLookup fields k with
    | none => rw [hf] at h1; exact absurd h1 (by simp)
    | some fobj =>
      rw [hf] at h1
      cases hrest : mapOpt (fLookup fields) ks with
      | none => rw [hrest] at h1; exact absurd h1 (by simp)
      | some rest =>
        rw [hrest] at h1
        injection h1 with h1
        subst h1
        simp only [List.map_cons, List.cons.injEq] at h2
        obtain ⟨hk, hks⟩ := h2
        simp only [mapOpt, oneofNameLookup, hf, hk, ih rest hrest hks]

/-- Oneof member-type pass resolves each member through the scalar table
with fall-back to the raw type name, in member order. -/
theorem mapOpt_oneofTypeLookup (fields : List (String × FieldBase)) :
    ∀ (keys : List String) (mems : List FieldBase),
      mapOpt (fLookup fields) keys = some mems →
      mapOpt (oneofTypeLookup fields) keys
        = some (mems.map (fun fb => (typeMapping fb.type).getD fb.type)) := by
  intro keys
  induction keys with
  | nil =>
    intro mems h1
    unfold mapOpt at h1
    injection h1 with h1
    subst h1
    simp [mapOpt]
  | cons k ks ih =>
    intro mems h1
    unfold mapOpt at h1
    cases hf : fLookup fields k with
    | none => rw [hf] at h1; exact absurd h1 (by simp)
    | some fobj =>
      rw [hf] at h1
      cases hrest : mapOpt (fLookup fields) ks with
      | none => rw [hrest] at h1; exact absurd h1 (by simp)
      | some rest =>
        rw [hrest] at h1
        injection h1 with h1
        subst h1
        simp only [mapOpt, oneofTypeLookup, hf, ih rest hrest, List.map_cons]

/-- C9: under the subset precondition (every member key of the oneof
resolves in the message's own field record to a field named by that key),
the emitted comment line lists the members in declared order, and the
union joins the members' types, resolved only through the scalar table
with fall-back to the raw type name, in the same order. -/
theorem c9_oneof_order_and_resolution (fields : List (String × FieldBase))
    (o : OneofDesc) (mems : List FieldBase)
    (h1 : mapOpt (fLookup fields) o.fieldKeys = some mems)
    (h2 : mems.map FieldBase.name = o.fieldKeys) :
    emitOneof fields o =
      some ("\toneof: " ++ jsJoin ", " o.fieldKeys ++ "\n\t" ++ o.name ++ ": "
        ++ jsJoin " | " (mems.map (fun fb => (typeMapping fb.type).getD fb.type))) := by
  simp only [emitOneof, mapOpt_oneofNameLookup fields o.fieldKeys mems h1 h2,
    mapOpt_oneofTypeLookup fields o.fieldKeys mems h1]

/-- Witness for C9 at a concrete two-member oneof mixing a scalar and a
message-typed member. -/
theorem c9_witness :
    mapOpt (fLookup oneofExFields) oneofEx.fieldKeys
        = some [FieldBase.mk "a" "string" false false, FieldBase.mk "b" "Foo" false false] ∧
    emitOneof oneofExFields oneofEx = some "\toneof: a, b\n\tchoice: String | Foo" :=
  ⟨by decide,
    c9_oneof_order_and_resolution oneofExFields oneofEx
      [FieldBase.mk "a" "string" false false, FieldBase.mk "b" "Foo" false false]
      (by decide) (by decide)⟩

/-- C10: a tree with nested declarations but no syntax option neither
returns a result nor performs the controlled proto3 abort; the conversion
crashes dereferencing the absent option string. -/
theorem c10_missing_syntax_crash (root : RootDesc) (ns : List NestedObj)
    (h1 : root.nested = some ns)
    (h2 : Option.bind root.options OptionsDesc.synOpt = none) :
    (protobufToGraphQL root).1 = ConvResult.typeError ∧
    (protobufToGraphQL root).1 ≠ ConvResult.exitFatal := by
  have he : (protobufToGraphQL root).1 = ConvResult.typeError := by
    cases hop : root.options with
    | none =>
      unfold protobufToGraphQL
      simp [h1, hop]
    | some opts =>
      rw [hop] at h2
      simp only [Option.some_bind] at h2
      unfold protobufToGraphQL
      simp [h1, hop, h2]
  exact ⟨he, by rw [he]; decide⟩

/-- Witness for C10 at a tree holding one enum and no options record. -/
theorem c10_witness :
    c10Root.nested = some [NestedObj.enumObj (EnumDesc.mk "E" ["A"])] ∧
    (protobufToGraphQL c10Root).1 = ConvResult.typeError ∧
    (protobufToGraphQL c10Root).1 ≠ ConvResult.exitFatal :=
  ⟨rfl, c10_missing_syntax_crash c10Root _ rfl rfl⟩

/-- Components determine a field result. -/
theorem fieldResult_ext (a b : FieldResult) (h1 : a.line = b.line)
    (h2 : a.field = b.field) (h3 : a.st = b.st) : a = b := by
  cases a
  cases b
  simp_all

/-- Field object coming back from emitField is the input field with its
name normalized. -/
theorem emitField_field_mk (st : FieldEmitState) (f : FieldBase) :
    (emitField st f).field
      = FieldBase.mk (emittedName f) f.type f.repeated f.map := rfl

/-- Normalized name of a field built over an already dot-free name. -/
theorem emittedName_mk_eq (n t : String) (r mp : Bool)
    (h : jsStartsWith n "." = false) :
    emittedName (FieldBase.mk n t r mp) = n := by
  unfold emittedName
  simp [h]

/-- Emission state coming out of emitField depends only on the incoming
state and the field's declared type. -/
theorem emitField_st_type (st : FieldEmitState) (g f : FieldBase)
    (ht : g.type = f.type) : (emitField st g).st = (emitField st f).st := by
  unfold emitField
  rw [ht]

/-- Re-emitting a field already emitted once, from the same state,
reproduces the same result when the original name carried at most one
leading dot. -/
theorem emitField_stable (st : FieldEmitState) (f : FieldBase)
    (h : jsStartsWith (emittedName f) "." = false) :
    emitField st ((emitField st f).field) = emitField st f := by
  rw [emitField_field_mk st f]
  apply fieldResult_ext
  · rw [emitField_line_eq, emitField_line_eq, emittedName_mk_eq _ _ _ _ h]
  · rw [emitField_field_mk, emitField_field_mk, emittedName_mk_eq _ _ _ _ h]
  · exact emitField_st_type st (FieldBase.mk (emittedName f) f.type f.repeated f.map) f rfl

/-- Re-running the field pass over its own output, from the same state,
reproduces the same result when every original name carried at most one
leading dot. -/
theorem emitFieldsAcc_stable :
    ∀ (l : List (String × FieldBase)) (st : FieldEmitState),
      (∀ kv ∈ l, jsStartsWith (emittedName kv.2) "." = false) →
      emitFieldsAcc st (emitFieldsAcc st l).fields = emitFieldsAcc st l := by
  intro l
  induction l with
  | nil => intro st _; rfl
  | cons kv rest ih =>
    intro st h
    obtain ⟨k, f⟩ := kv
    have hf := h (k, f) (by simp)
    simp only [emitFieldsAcc]
    rw [emitField_stable st f hf, ih _ (fun kv hm => h kv (by simp [hm]))]

/-- Re-emitting a message whose fields were already normalized once, from
the same state, reproduces the same declarations when every original name
carried at most one leading dot. -/
theorem messageDecls_stable (st : FieldEmitState) (m : TypeDesc) (d : MsgDecls)
    (h : messageDecls st m = some d)
    (hd : ∀ kv ∈ m.fields, jsStartsWith (emittedName kv.2) "." = false) :
    messageDecls st (TypeDesc.mk m.name d.fields m.oneofs) = some d := by
  have hst := emitFieldsAcc_stable m.fields st hd
  unfold messageDecls at h
  split at h
  · exact absurd h (by simp)
  · rename_i oLines ho
    injection h with h
    subst h
    unfold messageDecls
    simp only [hst, ho]

/-- Walking one package child preserves its namespace-instance kind. -/
theorem processChild_kind (st : FieldEmitState) (c : NestedObj)
    (r : FieldEmitState × NestedObj) (h : processChild st c = some r) :
    isNamespaceInst r.2 = isNamespaceInst c := by
  cases c with
  | enumObj e =>
    simp only [processChild] at h
    injection h with h
    subst h
    rfl
  | serviceObj s =>
    simp only [processChild] at h
    injection h with h
    subst h
    rfl
  | nsObj name children =>
    simp only [processChild] at h
    injection h with h
    subst h
    rfl
  | typeObj m children =>
    simp only [processChild] at h
    split at h
    · exact absurd h (by simp)
    · injection h with h
      subst h
      rfl

/-- Walking the package children preserves the any-namespace test the
package classification relies on. -/
theorem processChildren_any :
    ∀ (l : List NestedObj) (st : FieldEmitState)
      (r : FieldEmitState × List NestedObj),
      processChildren st l = some r →
      r.2.any isNamespaceInst = l.any isNamespaceInst := by
  intro l
  induction l with
  | nil =>
    intro st r h
    simp only [processChildren] at h
    injection h with h
    subst h
    rfl
  | cons c rest ih =>
    intro st r h
    simp only [processChildren] at h
    split at h
    · exact absurd h (by simp)
    · rename_i r1 h1
      split at h
      · exact absurd h (by simp)
      · rename_i r2 h2
        injection h with h
        subst h
        simp only [List.any_cons]
        rw [processChild_kind st c r1 h1, ih r1.1 r2 h2]

/-- Re-walking a package child already walked once, from the same state,
reproduces the same result when its field names carried at most one
leading dot. -/
theorem processChild_stable (st : FieldEmitState) (c : NestedObj)
    (r : FieldEmitState × NestedObj)
    (h : processChild st c = some r) (hc : childAtMostOneDot c = true) :
    processChild st r.2 = some r := by
  cases c with
  | enumObj e =>
    simp only [processChild] at h
    injection h with h
    subst h
    rfl
  | serviceObj s =>
    simp only [processChild] at h
    injection h with h
    subst h
    rfl
  | nsObj name children =>
    simp only [processChild] at h
    injection h with h
    subst h
    rfl
  | typeObj m children =>
    simp only [childAtMostOneDot, msgAtMostOneDot] at hc
    simp only [processChild] at h
    split at h
    · exact absurd h (by simp)
    · rename_i d hd
      injection h with h
      subst h
      have hfields : ∀ kv ∈ m.fields, jsStartsWith (emittedName kv.2) "." = false := by
        intro kv hm
        have hkv := (List.all_eq_true.mp hc) kv hm
        simpa [fieldAtMostOneDot] using hkv
      have hmsg := messageDecls_stable st m d hd hfields
      simp only [processChild, hmsg]

/-- Re-walking the package children already walked once, from the same
state, reproduces the same result when every field name carried at most
one leading dot. -/
theorem processChildren_stable :
    ∀ (l : List NestedObj) (st : FieldEmitState)
      (r : FieldEmitState × List NestedObj),
      processChildren st l = some r → l.all childAtMostOneDot = true →
      processChildren st r.2 = some r := by
  intro l
  induction l with
  | nil =>
    intro st r h _
    simp only [processChildren] at h
    injection h with h
    subst h
    rfl
  | cons c rest ih =>
    intro st r h hnd
    simp only [List.all_cons, Bool.and_eq_true] at hnd
    simp only [processChildren] at h
    split at h
    · exact absurd h (by simp)
    · rename_i r1 h1
      split at h
      · exact absurd h (by simp)
      · rename_i r2 h2
        injection h with h
        subst h
        have hs1 := processChild_stable st c r1 h1 hnd.1
        have hs2 := ih r1.1 r2 h2 hnd.2
        simp only [processChildren, hs1, hs2]

/-- Re-walking a top-level declaration already walked once reproduces the
same result when every processed field name carried at most one leading
dot. -/
theorem processTop_stable (obj : NestedObj) (r : List String × NestedObj)
    (h : processTop obj = some r) (hnd : objAtMostOneDot obj = true) :
    processTop r.2 = some r := by
  cases obj with
  | enumObj e =>
    simp only [processTop] at h
    injection h with h
    subst h
    rfl
  | serviceObj s =>
    simp only [processTop] at h
    injection h with h
    subst h
    rfl
  | typeObj m children =>
    simp only [objAtMostOneDot, Bool.and_eq_true] at hnd
    simp only [processTop] at h
    split at h
    · rename_i hany
      split at h
      · rename_i hg
        injection h with h
        subst h
        simp [processTop, hany, hg]
      · rename_i hg
        split at h
        · exact absurd h (by simp)
        · rename_i rr hrr
          injection h with h
          subst h
          have hany2 : rr.2.any isNamespaceInst = true := by
            rw [processChildren_any children _ rr hrr]
            exact hany
          have hcs := processChildren_stable children (FieldEmitState.mk [] []) rr hrr hnd.2
          simp [processTop, hany2, hg, hcs]
    · rename_i hany
      split at h
      · exact absurd h (by simp)
      · rename_i d hd
        injection h with h
        subst h
        have hfields : ∀ kv ∈ m.fields, jsStartsWith (emittedName kv.2) "." = false := by
          intro kv hm
          have hkv := (List.all_eq_true.mp hnd.1) kv hm
          simpa [fieldAtMostOneDot] using hkv
        have hmsg := messageDecls_stable (FieldEmitState.mk [] []) m d hd hfields
        simp [processTop, hany, hmsg]
  | nsObj name children =>
    simp only [objAtMostOneDot] at hnd
    simp only [processTop] at h
    split at h
    · rename_i hany
      split at h
      · rename_i hg
        injection h with h
        subst h
        simp [processTop, hany, hg]
      · rename_i hg
        split at h
        · exact absurd h (by simp)
        · rename_i rr hrr
          injection h with h
          subst h
          have hany2 : rr.2.any isNamespaceInst = true := by
            rw [processChildren_any children _ rr hrr]
            exact hany
          have hcs := processChildren_stable children (FieldEmitState.mk [] []) rr hrr hnd
          simp [processTop, hany2, hg, hcs]
    · rename_i hany
      injection h with h
      subst h
      simp [processTop, hany]

/-- Re-walking the whole top-level list already walked once reproduces
the same result when every processed field name carried at most one
leading dot. -/
theorem processTops_stable :
    ∀ (l : List NestedObj) (r : List String × List NestedObj),
      processTops l = some r → l.all objAtMostOneDot = true →
      processTops r.2 = some r := by
  intro l
  induction l with
  | nil =>
    intro r h _
    simp only [processTops] at h
    injection h with h
    subst h
    rfl
  | cons obj rest ih =>
    intro r h hnd
    simp only [List.all_cons, Bool.and_eq_true] at hnd
    simp only [processTops] at h
    split at h
    · exact absurd h (by simp)
    · rename_i r1 h1
      split at h
      · exact absurd h (by simp)
      · rename_i r2 h2
        injection h with h
        subst h
        have hs1 := processTop_stable obj r1 h1 hnd.1
        have hs2 := ih r2 h2 hnd.2
        simp only [processTops, hs1, hs2]

/-- C6 counterexample: on a tree whose field name carries two leading
dots, the in-place stripping mutates the descriptor during the first run,
so the second run over the same tree produces different output text. -/
theorem c6_leading_dots_counterexample :
    (protobufToGraphQL (protobufToGraphQL c6Root).2).1 ≠ (protobufToGraphQL c6Root).1 := by
  decide

/-- C6 amended: re-running the engine on the same descriptor tree yields
byte-identical output text whenever no field name carries two or more
leading dots: if the first run produces output text, the second run over
the (possibly name-stripped) tree produces exactly the same text, since a
single leading qualifier dot is stripped during the first run and the
emitted text already uses the stripped name. Only a name with two or more
leading dots breaks idempotence, losing one dot per run. -/
theorem c6_amended_idempotent_at_most_one_dot (root : RootDesc) (s : String)
    (h1 : rootAtMostOneDot root = true)
    (h2 : (protobufToGraphQL root).1 = ConvResult.ok s) :
    (protobufToGraphQL (protobufToGraphQL root).2).1 = ConvResult.ok s := by
  obtain ⟨nested, options⟩ := root
  cases nested with
  | none => exact absurd h2 (by simp [protobufToGraphQL])
  | some ns =>
    cases options with
    | none => exact absurd h2 (by simp [protobufToGraphQL])
    | some opts =>
      simp only [rootAtMostOneDot] at h1
      cases hso : opts.synOpt with
      | none => exact absurd h2 (by simp [protobufToGraphQL, hso])
      | some syn =>
        cases he : jsEndsWith syn "3" with
        | false => exact absurd h2 (by simp [protobufToGraphQL, hso, he])
        | true =>
          cases hpt : processTops ns with
          | none => exact absurd h2 (by simp [protobufToGraphQL, hso, he, hpt])
          | some r =>
            have hst := processTops_stable ns r hpt h1
            simp only [protobufToGraphQL, hso, he, hpt, hst, if_true] at h2 ⊢
            exact h2

/-- Witness for C6 amended at a concrete tree whose field name carries
exactly one leading qualifier dot: both runs produce the same text, with
the dot already stripped in the first run's output. -/
theorem c6_amended_witness :
    rootAtMostOneDot c6DotRoot = true ∧
    (protobufToGraphQL c6DotRoot).1
      = ConvResult.ok "type M \x7b\n\tx: String\n\x7d\n\ninput MInput \x7b\n\tx: String\n\x7d\n" ∧
    (protobufToGraphQL (protobufToGraphQL c6DotRoot).2).1
      = ConvResult.ok "type M \x7b\n\tx: String\n\x7d\n\ninput MInput \x7b\n\tx: String\n\x7d\n" :=
  ⟨by decide, by decide,
    c6_amended_idempotent_at_most_one_dot c6DotRoot _ (by decide) (by decide)⟩

/-- Concatenation headed by a non-empty string is non-empty. -/
theorem append_left_ne_empty (a s t : String) (ha : a.data ≠ []) :
    a ++ s ++ t ≠ "" := by
  intro hcon
  have hd := congrArg String.data hcon
  rw [String.data_append, String.data_append] at hd
  simp at hd
  exact ha hd.1

/-- Classification fold of the service emitter equals the filter form:
queries are exactly the methods whose names pass the Get-or-List check,
mutations are exactly all the others, in method order. -/
theorem classifyMethods_eq (l : List MethodDesc) :
    classifyMethods l =
      ((l.filter (fun m => isQueryName m.name)).map gqlMethodField,
       (l.filter (fun m => !isQueryName m.name)).map gqlMethodField) := by
  induction l with
  | nil => rfl
  | cons m rest ih =>
    have hqc : (["Get", "List"].any (fun verb => jsStartsWith m.name verb))
        = isQueryName m.name := by
      simp [isQueryName]
    simp only [classifyMethods, ih, hqc, List.filter_cons, List.map_cons]
    cases hq : isQueryName m.name <;> simp [hq]

/-- Assembly of the two conditional blocks with the filter-join of the
source equals the case form of the specification. -/
theorem join_filter_blocks (qs ms : List String) :
    jsJoin "\n\n"
      (([if qs.isEmpty then "" else "type Query \x7b\n" ++ jsJoin "\n" qs ++ "\n\x7d",
        if ms.isEmpty then ""
        else "type Mutation \x7b\n" ++ jsJoin "\n" ms ++ "\n\x7d"]).filter
        (fun s => s ≠ "")) =
      (if qs = [] then
        if ms = [] then "" else "type Mutation \x7b\n" ++ jsJoin "\n" ms ++ "\n\x7d"
      else
        if ms = [] then "type Query \x7b\n" ++ jsJoin "\n" qs ++ "\n\x7d"
        else
          "type Query \x7b\n" ++ jsJoin "\n" qs ++ "\n\x7d" ++ "\n\n"
            ++ ("type Mutation \x7b\n" ++ jsJoin "\n" ms ++ "\n\x7d")) := by
  cases qs with
  | nil =>
    cases ms with
    | nil => rfl
    | cons b bs =>
      have hm : ("type Mutation \x7b\n" ++ jsJoin "\n" (b :: bs) ++ "\n\x7d") ≠ "" :=
        append_left_ne_empty _ _ _ (by decide)
      simp [hm, jsJoin]
  | cons a as =>
    have hq : ("type Query \x7b\n" ++ jsJoin "\n" (a :: as) ++ "\n\x7d") ≠ "" :=
      append_left_ne_empty _ _ _ (by decide)
    cases ms with
    | nil => simp [hq, jsJoin]
    | cons b bs =>
      have hm : ("type Mutation \x7b\n" ++ jsJoin "\n" (b :: bs) ++ "\n\x7d") ≠ "" :=
        append_left_ne_empty _ _ _ (by decide)
      simp [hq, hm, jsJoin]

/-- C7: the service emitter agrees everywhere with the specification
form: methods named with a Get or List head become Query fields, every
other method becomes a Mutation field, each field line is the method name
with the request type as both argument name and argument type and the
response type as result, blocks are emitted only when non-empty, and two
blocks are joined with one blank line. -/
theorem c7_service_emission (service : ServiceDesc) :
    protobufServiceToGraphQL service = serviceSpecEmit service := by
  unfold protobufServiceToGraphQL serviceSpecEmit
  rw [classifyMethods_eq]
  exact join_filter_blocks _ _

end ProtoGql
